import Mathlib

/-!
Verification development for the cng3 peer-node program.

The definitions below are a shallow embedding of the Rust sources:
`src/utils/nas_info.rs`, `src/plugins/plugin_nas.rs`, `src/plugins/plugin_panels.rs`,
`src/messages.rs` and `src/web.rs`.  Strings are Lean `String`s (Rust `String`),
byte buffers are `List Nat` with entries below 256, machine integers are `Nat`
with explicit `% 2 ^ w` where overflow matters, filesystem state is an explicit
association list, and Rust panics are modelled by `Option`/`none`.
-/

set_option maxHeartbeats 1000000

namespace Cng3

/-! ## Byte-level helpers -/

/-- Concatenation of a list of lists (used in place of Rust iterator `flat_map`). -/
def flat {α : Type} (l : List (List α)) : List α := l.foldr (· ++ ·) []

/-- UTF-8 encoding of a single character (the byte sequence Rust's `as_bytes` yields). -/
def utf8EncodeChar (c : Char) : List Nat :=
  let n := c.toNat
  if n < 128 then [n]
  else if n < 2048 then [192 + n / 64, 128 + n % 64]
  else if n < 65536 then [224 + n / 4096, 128 + n / 64 % 64, 128 + n % 64]
  else [240 + n / 262144, 128 + n / 4096 % 64, 128 + n / 64 % 64, 128 + n % 64]

/-- UTF-8 byte encoding of a string, as Rust's `str::as_bytes`. -/
def strToUtf8 (s : String) : List Nat := flat (s.data.map utf8EncodeChar)

/-! ## SHA-256 (the `sha2` crate collaborator used by `hash_str`) -/

/-- Truncation to 32 bits. -/
def w32 (x : Nat) : Nat := x % 4294967296

/-- Rotate a 32-bit word right by n bits, expressed with division and remainder. -/
def rotr32 (n x : Nat) : Nat := w32 (x / 2 ^ n + x % 2 ^ n * 2 ^ (32 - n))

/-- Shift a 32-bit word right by n bits. -/
def shr32 (n x : Nat) : Nat := x / 2 ^ n

/-- Bitwise complement of a 32-bit word. -/
def not32 (x : Nat) : Nat := 4294967295 - x

/-- SHA-256 Sigma0 function. -/
def bigSigma0 (x : Nat) : Nat := rotr32 2 x ^^^ rotr32 13 x ^^^ rotr32 22 x

/-- SHA-256 Sigma1 function. -/
def bigSigma1 (x : Nat) : Nat := rotr32 6 x ^^^ rotr32 11 x ^^^ rotr32 25 x

/-- SHA-256 sigma0 function. -/
def smallSigma0 (x : Nat) : Nat := rotr32 7 x ^^^ rotr32 18 x ^^^ shr32 3 x

/-- SHA-256 sigma1 function. -/
def smallSigma1 (x : Nat) : Nat := rotr32 17 x ^^^ rotr32 19 x ^^^ shr32 10 x

/-- SHA-256 round constants. -/
def sha256K : List Nat :=
  [1116352408, 1899447441, 3049323471, 3921009573, 961987163, 1508970993,
   2453635748, 2870763221, 3624381080, 310598401, 607225278, 1426881987,
   1925078388, 2162078206, 2614888103, 3248222580, 3835390401, 4022224774,
   264347078, 604807628, 770255983, 1249150122, 1555081692, 1996064986,
   2554220882, 2821834349, 2952996808, 3210313671, 3336571891, 3584528711,
   113926993, 338241895, 666307205, 773529912, 1294757372, 1396182291,
   1695183700, 1986661051, 2177026350, 2456956037, 2730485921, 2820302411,
   3259730800, 3345764771, 3516065817, 3600352804, 4094571909, 275423344,
   430227734, 506948616, 659060556, 883997877, 958139571, 1322822218,
   1537002063, 1747873779, 1955562222, 2024104815, 2227730452, 2361852424,
   2428436474, 2756734187, 3204031479, 3329325298]

/-- SHA-256 initial hash value. -/
def sha256H0 : List Nat :=
  [1779033703, 3144134277, 1013904242, 2773480762, 1359893119, 2600822924,
   528734635, 1541459225]

/-- Big-endian byte serialization of a number into `n` bytes. -/
def natToBytesBE (n val : Nat) : List Nat :=
  (List.range n).reverse.map (fun i => val / 256 ^ i % 256)

/-- SHA-256 message padding: a 1-bit, zeros, and the 64-bit big-endian bit length. -/
def sha256Pad (msg : List Nat) : List Nat :=
  let padZeros := (119 - msg.length % 64) % 64
  msg ++ [128] ++ List.replicate padZeros 0 ++ natToBytesBE 8 (msg.length * 8)

/-- Split a byte list into 64-byte blocks. -/
def toChunks64 : List Nat → List (List Nat)
  | [] => []
  | a :: t => (a :: t).take 64 :: toChunks64 ((a :: t).drop 64)
termination_by l => l.length
decreasing_by simp [List.length_drop]; omega

/-- Assemble big-endian 32-bit words from a 64-byte block. -/
def bytesToWords (block : List Nat) : List Nat :=
  (List.range 16).map (fun i =>
    block.getD (4 * i) 0 * 16777216 + block.getD (4 * i + 1) 0 * 65536 +
    block.getD (4 * i + 2) 0 * 256 + block.getD (4 * i + 3) 0)

/-- SHA-256 message schedule expansion to 64 words. -/
def sha256Schedule (ws : List Nat) : List Nat :=
  (List.range 48).foldl
    (fun w _ =>
      w ++ [w32 (smallSigma1 (w.getD (w.length - 2) 0) + w.getD (w.length - 7) 0 +
            smallSigma0 (w.getD (w.length - 15) 0) + w.getD (w.length - 16) 0)])
    ws

/-- One SHA-256 compression step over a 64-byte block. -/
def sha256Compress (hs : List Nat) (block : List Nat) : List Nat :=
  let ws := sha256Schedule (bytesToWords block)
  let fin := (List.range 64).foldl
    (fun st i =>
      match st with
      | [a, b, c, d, e, f, g, h] =>
        let ch := (e &&& f) ^^^ (not32 e &&& g)
        let temp1 := w32 (h + bigSigma1 e + ch + sha256K.getD i 0 + ws.getD i 0)
        let maj := (a &&& b) ^^^ (a &&& c) ^^^ (b &&& c)
        let temp2 := w32 (bigSigma0 a + maj)
        [w32 (temp1 + temp2), a, b, c, w32 (d + temp1), e, f, g]
      | other => other)
    hs
  List.zipWith (fun x y => w32 (x + y)) hs fin

/-- SHA-256 digest (32 bytes) of a byte message. -/
def sha256 (msg : List Nat) : List Nat :=
  flat (((toChunks64 (sha256Pad msg)).foldl sha256Compress sha256H0).map (natToBytesBE 4))

/-- Hexadecimal digit character. -/
def hexDigit (n : Nat) : Char :=
  if n < 10 then Char.ofNat (48 + n) else Char.ofNat (87 + n)

/-- Lowercase hex encoding of a byte list, as the `hex` crate's `encode`. -/
def hexEncode (bytes : List Nat) : String :=
  ⟨flat (bytes.map (fun b => [hexDigit (b / 16), hexDigit (b % 16)]))⟩

/-- Embeds `hash_str` from `src/utils/nas_info.rs`: hex-encoded SHA-256 of the
input string's UTF-8 bytes. -/
def hash_str (input : String) : String := hexEncode (sha256 (strToUtf8 input))

/-! ## File lists (`src/utils/nas_info.rs`) -/

/-- Embeds `FileMeta`; `mtime : SystemTime` is modelled as an absolute `Nat` instant. -/
structure FileMeta where
  filename : String
  hash : String
  mtime : Nat
deriving DecidableEq, Repr

/-- Embeds `FileList`. -/
structure FileList where
  file_list : List FileMeta
  hash_str : String
deriving DecidableEq, Repr

/-- Comparison used by `file_list.sort_by(|a, b| a.filename.cmp(&b.filename))`. -/
def fileMetaLe (a b : FileMeta) : Bool := decide (a.filename ≤ b.filename)

/-- The `FileMeta` built by `FileList::new` for one walk entry
`(relative path, file content as the lossy-decoded string, mtime)`:
the filename is the folder, a slash and the relative path, the hash is
`hash_str` of the content. -/
def walkMeta (folder : String) (e : String × String × Nat) : FileMeta :=
  { filename := folder ++ "/" ++ e.1, hash := hash_str e.2.1, mtime := e.2.2 }

/-- Embeds `FileList::new`.  The filesystem walk is modelled by an explicit
listing of `(relative path, file content as the lossy-decoded string, mtime)`
triples; a real walk yields pairwise-distinct relative paths. -/
def FileList_new (folder : String) (walk : List (String × String × Nat)) : FileList :=
  let file_list := walk.map (walkMeta folder)
  let file_list := file_list.mergeSort fileMetaLe
  let serialized := String.intercalate "|" (file_list.map (fun f => f.filename ++ ":" ++ f.hash))
  { file_list := file_list, hash_str := hash_str serialized }

/-- Embeds `FileList::find_by_filename`. -/
def FileList.find_by_filename (fl : FileList) (filename : String) : Option FileMeta :=
  fl.file_list.find? (fun f => f.filename == filename)

/-- Embeds `SyncAction`. -/
inductive SyncAction where
  | getFile (filename : String) (mtime : Nat)
  | putFile (filename : String) (mtime : Nat)
deriving DecidableEq, Repr

/-- Body of the first loop of `compare_and_generate_actions`: the action (if
any) emitted for one server entry. -/
def server_pass (client_list : FileList) (server_file : FileMeta) : Option SyncAction :=
  match client_list.find_by_filename server_file.filename with
  | some client_file =>
    if client_file.hash ≠ server_file.hash ∨ client_file.mtime ≠ server_file.mtime then
      some (if client_file.mtime > server_file.mtime then
              SyncAction.putFile server_file.filename client_file.mtime
            else
              SyncAction.getFile server_file.filename server_file.mtime)
    else none
  | none => some (SyncAction.getFile server_file.filename server_file.mtime)

/-- Body of the second loop of `compare_and_generate_actions`: the action (if
any) emitted for one client entry. -/
def client_pass (server_list : FileList) (client_file : FileMeta) : Option SyncAction :=
  if (server_list.find_by_filename client_file.filename).isNone then
    some (SyncAction.putFile client_file.filename client_file.mtime)
  else none

/-- Embeds `compare_and_generate_actions`: the two source loops appear as the two
`filterMap` passes appended in order. -/
def compare_and_generate_actions (server_list client_list : FileList) : List SyncAction :=
  server_list.file_list.filterMap (server_pass client_list)
  ++ client_list.file_list.filterMap (client_pass server_list)

/-! ## Base64 (the `base64` crate `general_purpose::STANDARD` engine: padded,
canonical padding required, trailing bits rejected) -/

/-- Character of the standard base64 alphabet for a sextet value below 64. -/
def valToChar (v : Nat) : Char :=
  if v < 26 then Char.ofNat (65 + v)
  else if v < 52 then Char.ofNat (97 + (v - 26))
  else if v < 62 then Char.ofNat (48 + (v - 52))
  else if v = 62 then '+'
  else '/'

/-- Sextet value of an alphabet character; `none` for characters outside the alphabet. -/
def charVal (c : Char) : Option Nat :=
  (List.range 64).find? (fun v => valToChar v == c)

/-- Standard base64 encoding of a byte list, with padding. -/
def b64encodeBytes : List Nat → List Char
  | [] => []
  | [b1] => [valToChar (b1 / 4), valToChar (b1 % 4 * 16), '=', '=']
  | [b1, b2] =>
    [valToChar (b1 / 4), valToChar (b1 % 4 * 16 + b2 / 16), valToChar (b2 % 16 * 4), '=']
  | b1 :: b2 :: b3 :: rest =>
    valToChar (b1 / 4) :: valToChar (b1 % 4 * 16 + b2 / 16) ::
    valToChar (b2 % 16 * 4 + b3 / 64) :: valToChar (b3 % 64) :: b64encodeBytes rest

/-- Standard base64 decoding; rejects non-canonical padding and nonzero trailing
bits, as the crate's `STANDARD` engine does. -/
def b64decodeChars : List Char → Option (List Nat)
  | [] => some []
  | c1 :: c2 :: c3 :: c4 :: rest =>
    match charVal c1, charVal c2 with
    | some v1, some v2 =>
      if c3 = '=' then
        if c4 = '=' ∧ rest = [] ∧ v2 % 16 = 0 then some [v1 * 4 + v2 / 16] else none
      else
        match charVal c3 with
        | some v3 =>
          if c4 = '=' then
            if rest = [] ∧ v3 % 4 = 0 then some [v1 * 4 + v2 / 16, v2 % 16 * 16 + v3 / 4]
            else none
          else
            match charVal c4, b64decodeChars rest with
            | some v4, some tail =>
              some ((v1 * 4 + v2 / 16) :: (v2 % 16 * 16 + v3 / 4) :: (v3 % 4 * 64 + v4) :: tail)
            | _, _ => none
        | none => none
    | _, _ => none
  | _ => none

/-- Embeds `general_purpose::STANDARD.encode`. -/
def b64encode (bytes : List Nat) : String := ⟨b64encodeBytes bytes⟩

/-- Embeds `general_purpose::STANDARD.decode`. -/
def b64decode (content : String) : Option (List Nat) := b64decodeChars content.data

/-! ## Filesystem model and `write_file` (`src/utils/nas_info.rs`) -/

/-- Filesystem state: association list from path to (content bytes, mtime seconds). -/
abbrev FsState : Type := List (String × List Nat × Int)

/-- Content of a file, when it exists. -/
def fsRead (fs : FsState) (f : String) : Option (List Nat) :=
  (fs.find? (fun e => e.1 == f)).map (fun e => e.2.1)

/-- Existence check, as `Path::exists`. -/
def fsExists (fs : FsState) (f : String) : Bool := (fs.find? (fun e => e.1 == f)).isSome

/-- Write a file and set its mtime, replacing any previous entry. -/
def fsInsert : FsState → String → List Nat → Int → FsState
  | [], f, b, m => [(f, b, m)]
  | e :: rest, f, b, m => if e.1 = f then (f, b, m) :: rest else e :: fsInsert rest f b m

/-- Remove a file. -/
def fsRemove (fs : FsState) (f : String) : FsState := fs.eraseP (fun e => e.1 == f)

/-- The part of `write_file` after its short-circuit: decode the base64
content, parse the mtime, write the file and set its mtime. -/
def write_file_store (parse_from_rfc3339 : String → Option Int) (fs : FsState)
    (filename content mtime : String) : Option (FsState × Bool) :=
  match b64decode content, parse_from_rfc3339 mtime with
  | some decoded, some ts => some (fsInsert fs filename decoded ts, true)
  | _, _ => none

/-- Embeds `write_file`.  `parse_from_rfc3339` abstracts the chrono collaborator
(`DateTime::parse_from_rfc3339`, timestamp seconds).  The result is `none` on
error; on success the `Bool` records whether a filesystem write was performed:
when the file exists and the base64 encoding of its bytes equals the incoming
content the call returns `Ok` early with no write. -/
def write_file (parse_from_rfc3339 : String → Option Int) (fs : FsState)
    (filename content mtime : String) : Option (FsState × Bool) :=
  match fsRead fs filename with
  | some bytes =>
    if b64encode bytes = content then some (fs, false)
    else write_file_store parse_from_rfc3339 fs filename content mtime
  | none => write_file_store parse_from_rfc3339 fs filename content mtime

/-- Embeds `safe_remove` (files only in this model): `Ok` deletes, a missing
path is an error. -/
def safe_remove (fs : FsState) (f : String) : Option FsState :=
  if fsExists fs f then some (fsRemove fs f) else none

/-! ## Panels plugin (`src/plugins/plugin_panels.rs`) -/

/-- Embeds the `Panel` struct; the `u16` geometry fields are `Nat` below 65536. -/
structure Panel where
  title : String
  sub_title : String
  plugin_name : String
  x : Nat
  y : Nat
  width : Nat
  height : Nat
  output : List String
deriving DecidableEq, Repr

/-- The output bound `MAX_OUTPUT_LEN`. -/
def MAX_OUTPUT_LEN : Nat := 300

/-- Embeds the `output_push` mutation on one panel's output: push, then
`drain(..len - MAX_OUTPUT_LEN)` evicts from the front when over the bound. -/
def output_push (output : List String) (entry : String) : List String :=
  let out := output ++ [entry]
  if out.length > MAX_OUTPUT_LEN then out.drop (out.length - MAX_OUTPUT_LEN) else out

/-- Apply a mutation to the first panel satisfying a predicate, as the source's
`iter_mut().find`-style loops do. -/
def updateFirstPanel (p : Panel → Bool) (f : Panel → Panel) : List Panel → List Panel
  | [] => []
  | x :: rest => if p x then f x :: rest else x :: updateFirstPanel p f rest

/-- Embeds the `output_push` command arm: find the panel by title and push. -/
def panels_output_push (panels : List Panel) (panel_title entry : String) : List Panel :=
  updateFirstPanel (fun pl => pl.title == panel_title)
    (fun pl => { pl with output := output_push pl.output entry }) panels

/-- Embeds the `match action.as_str()` arms of `handle_cmd_size` on one panel.
`u16` increments wrap modulo 65536; decrements are guarded by `> 2`. -/
def sizeApply (action : String) (panel : Panel) : Panel :=
  match action with
  | "+x" => { panel with width := (panel.width + 1) % 65536 }
  | "-x" => if panel.width > 2 then { panel with width := panel.width - 1 } else panel
  | "+y" => { panel with height := (panel.height + 1) % 65536 }
  | "-y" => if panel.height > 2 then { panel with height := panel.height - 1 } else panel
  | _ => panel

/-- The `enumerate` loop of `handle_cmd_size`: only the panel whose index is
the active one is mutated. -/
def handle_cmd_size_go (active_panel : Nat) (action : String) : Nat → List Panel → List Panel
  | _, [] => []
  | idx, panel :: rest =>
    (if idx = active_panel then sizeApply action panel else panel) ::
      handle_cmd_size_go active_panel action (idx + 1) rest

/-- Embeds `handle_cmd_size`: only the panel at the active index is mutated. -/
def handle_cmd_size (panels : List Panel) (active_panel : Nat) (action : String) : List Panel :=
  handle_cmd_size_go active_panel action 0 panels

/-- Rust's `%` on integers: panics (here `none`) when the divisor is zero. -/
def rustRem (a b : Nat) : Option Nat := if b = 0 then none else some (a % b)

/-- Embeds `handle_cmd_tab`: when the terminal is present the active index
advances modulo the panel count; the returned value is the new active index,
`none` modelling the remainder-by-zero panic. -/
def handle_cmd_tab (terminal : Bool) (panels : List Panel) (active_panel : Nat) : Option Nat :=
  if terminal then rustRem (active_panel + 1) panels.length else some active_panel

/-- Decimal digit parsing of a character list. -/
def decDigits (s : List Char) : Option Nat :=
  if s = [] then none
  else
    s.foldl
      (fun acc c =>
        match acc with
        | none => none
        | some n => if c.isDigit then some (n * 10 + (c.toNat - 48)) else none)
      (some 0)

/-- Rust `str::parse::<u16>` on a decimal string: digits only, range-checked. -/
def parse_u16 (s : String) : Option Nat :=
  match decDigits s.data with
  | some n => if n < 65536 then some n else none
  | none => none

/-- Embeds the `create` command arm: parse the four `u16` fields (a parse
failure panics in the source, modelled as `none`) and build the panel. -/
def panelCreate (title plugin_name x y width height : String) : Option Panel :=
  match parse_u16 x, parse_u16 y, parse_u16 width, parse_u16 height with
  | some xv, some yv, some wv, some hv =>
    some { title := title, sub_title := "", plugin_name := plugin_name,
           x := xv, y := yv, width := wv, height := hv, output := [] }
  | _, _, _, _ => none

/-! ## Bus command dispatch (`src/messages.rs`) -/

/-- Rust `str::trim_end`: drop trailing whitespace. -/
def trim_end (s : List Char) : List Char := (s.reverse.dropWhile Char.isWhitespace).reverse

/-- Rust `str::split_once('#')`: split at the first `#`, when present. -/
def split_once_hash (s : List Char) : Option (List Char × List Char) :=
  if '#' ∈ s then some (s.takeWhile (fun c => c != '#'), (s.dropWhile (fun c => c != '#')).tail)
  else none

/-- The comment-stripping step of `parse_cmd`:
`cmd.split_once('#').map(|(before, _)| before.trim_end()).unwrap_or(cmd)`. -/
def strip_comment (cmd : List Char) : List Char :=
  match split_once_hash cmd with
  | some (before, _) => trim_end before
  | none => cmd

/-- Rust `str::split_whitespace`. -/
def split_whitespace : List Char → List (List Char)
  | [] => []
  | c :: cs =>
    if c.isWhitespace then split_whitespace cs
    else (c :: cs.takeWhile (fun x => !x.isWhitespace)) ::
      split_whitespace (cs.dropWhile (fun x => !x.isWhitespace))
termination_by s => s.length
decreasing_by
  · simp
  · have hsub : (cs.dropWhile (fun x => !x.isWhitespace)).Sublist cs := List.dropWhile_sublist _
    have := hsub.length_le
    simp; omega

/-- What the bus router does with a `Cmd` message. -/
inductive CmdDispatch where
  | empty
  | plugins
  | shutdown
  | warnUnknown (command : String)
deriving DecidableEq, Repr

/-- Embeds `parse_cmd`: strip the `#` suffix, split on whitespace, and dispatch
on the first token.  `empty` is the bare `return`: nothing runs and no log
message is sent. -/
def parse_cmd (cmd : String) : CmdDispatch :=
  let stripped := strip_comment cmd.data
  let cmd_parts := split_whitespace stripped
  match cmd_parts with
  | [] => CmdDispatch.empty
  | command :: _ =>
    if command = "p".data then CmdDispatch.plugins
    else if command = "exit".data ∨ command = "q".data ∨ command = "quit".data then
      CmdDispatch.shutdown
    else CmdDispatch.warnUnknown ⟨command⟩

/-! ## NAS plugin server state machine (`src/plugins/plugin_nas.rs`) -/

/-- Embeds `NasState`. -/
inductive NasState where
  | unsync
  | synced
  | syncing
  | err
deriving DecidableEq, Repr

/-- Embeds `NasEvent`. -/
inductive NasEvent where
  | onboard
  | offboard
deriving DecidableEq, Repr

/-- Embeds `NasInfo`. -/
structure NasInfo where
  ts : Nat
  name : String
  onboard : Bool
  nas_state : NasState
  tailscale_ip : Option String
deriving DecidableEq, Repr

/-- The per-peer transition of `handle_nas_event_server`.  The source's
`_ => todo!()` arm (reached in state `Err`) panics, modelled as `none`. -/
def nas_state_after_event_server (st : NasState) (ev : NasEvent) : Option NasState :=
  match st, ev with
  | NasState.unsync, NasEvent.onboard => some NasState.unsync
  | NasState.unsync, NasEvent.offboard => some NasState.unsync
  | NasState.syncing, NasEvent.onboard => some NasState.syncing
  | NasState.syncing, NasEvent.offboard => some NasState.unsync
  | NasState.synced, NasEvent.onboard => some NasState.synced
  | NasState.synced, NasEvent.offboard => some NasState.unsync
  | NasState.err, _ => none

/-- Apply the per-peer transition to the first entry with the given name, as
`nas_infos.iter_mut().find(..)` does; a missing peer leaves the table unchanged. -/
def apply_nas_event_to_first (name : String) (ev : NasEvent) :
    List NasInfo → Option (List NasInfo)
  | [] => some []
  | info :: rest =>
    if info.name = name then
      (nas_state_after_event_server info.nas_state ev).map
        (fun st => { info with nas_state := st } :: rest)
    else
      (apply_nas_event_to_first name ev rest).map (info :: ·)

/-- Embeds `handle_nas_event_server`: events about the server itself are
ignored; otherwise the named peer's state is advanced. -/
def handle_nas_event_server (nas_server : String) (nas_infos : List NasInfo)
    (name : String) (ev : NasEvent) : Option (List NasInfo) :=
  if name ≠ nas_server then apply_nas_event_to_first name ev nas_infos else some nas_infos

/-! ## HTTP handlers (`src/web.rs`) -/

/-- Rust `std::path::Component` on Unix, without the Windows prefix variant. -/
inductive PathComponent where
  | rootDir
  | curDir
  | parentDir
  | normal (s : String)
deriving DecidableEq, Repr

/-- Model of `Path::components`: a leading slash is `RootDir`; empty segments
vanish; `.` is `CurDir`, `..` is `ParentDir`, anything else is `Normal`. -/
def path_components (path : String) : List PathComponent :=
  let root : List PathComponent :=
    if path.data.head? = some '/' then [PathComponent.rootDir] else []
  let segs := (List.splitOn '/' path.data).filter (fun seg => seg ≠ [])
  root ++ segs.map (fun seg =>
    if seg = ['.'] then PathComponent.curDir
    else if seg = ['.', '.'] then PathComponent.parentDir
    else PathComponent.normal ⟨seg⟩)

/-- Rust `Path::is_absolute` on Unix: the path starts with a slash. -/
def is_absolute (path : String) : Bool := path.data.head? == some '/'

/-- Embeds `is_valid_filename` from `src/web.rs`. -/
def is_valid_filename (path : String) : Bool :=
  ((path_components path).all (fun c =>
    match c with
    | PathComponent.normal _ => true
    | PathComponent.curDir => true
    | _ => false))
  && !is_absolute path

/-- Fuel-driven model of `String::from_utf8_lossy`: well-formed sequences decode
to their scalar value, ill-formed bytes become U+FFFD. -/
def utf8LossyGo : Nat → List Nat → List Char
  | 0, _ => []
  | _, [] => []
  | fuel + 1, b :: rest =>
    if b < 128 then Char.ofNat b :: utf8LossyGo fuel rest
    else if 194 ≤ b ∧ b ≤ 223 then
      match rest with
      | b2 :: rest2 =>
        if 128 ≤ b2 ∧ b2 < 192 then
          Char.ofNat ((b - 192) * 64 + (b2 - 128)) :: utf8LossyGo fuel rest2
        else Char.ofNat 65533 :: utf8LossyGo fuel rest
      | [] => [Char.ofNat 65533]
    else if 224 ≤ b ∧ b ≤ 239 then
      match rest with
      | b2 :: b3 :: rest3 =>
        if (128 ≤ b2 ∧ b2 < 192) ∧ (128 ≤ b3 ∧ b3 < 192) then
          Char.ofNat ((b - 224) * 4096 + (b2 - 128) * 64 + (b3 - 128)) :: utf8LossyGo fuel rest3
        else Char.ofNat 65533 :: utf8LossyGo fuel rest
      | _ => [Char.ofNat 65533]
    else if 240 ≤ b ∧ b ≤ 244 then
      match rest with
      | b2 :: b3 :: b4 :: rest4 =>
        if (128 ≤ b2 ∧ b2 < 192) ∧ (128 ≤ b3 ∧ b3 < 192) ∧ (128 ≤ b4 ∧ b4 < 192) then
          Char.ofNat ((b - 240) * 262144 + (b2 - 128) * 4096 + (b3 - 128) * 64 + (b4 - 128)) ::
            utf8LossyGo fuel rest4
        else Char.ofNat 65533 :: utf8LossyGo fuel rest
      | _ => [Char.ofNat 65533]
    else Char.ofNat 65533 :: utf8LossyGo fuel rest

/-- Model of `String::from_utf8_lossy`. -/
def utf8Lossy (bytes : List Nat) : List Char := utf8LossyGo bytes.length bytes

/-- Outcome of an HTTP handler: status code, the JSON `result` field when the
endpoint returns one, the filesystem afterwards, and whether the handler
performed any filesystem access for the request's filename. -/
structure WebResult where
  status : Nat
  result : Option Nat
  fs : FsState
  fs_accessed : Bool
deriving DecidableEq, Repr

/-- Embeds the `/verify_hash` handler: no filename validation; it attempts
`fs::read` on the request's filename and always answers 200 with a result. -/
def verify_hash_handler (fs : FsState) (filename hash_str_req : String) : WebResult :=
  let result :=
    match fsRead fs filename with
    | some bytes => if hash_str_req = hash_str ⟨utf8Lossy bytes⟩ then 0 else 1
    | none => 1
  { status := 200, result := some result, fs := fs, fs_accessed := true }

/-- Embeds the `/upload` handler: validate the filename first, then `write_file`. -/
def upload_handler (parse_from_rfc3339 : String → Option Int) (fs : FsState)
    (filename content mtime : String) : WebResult :=
  if !is_valid_filename filename then
    { status := 400, result := none, fs := fs, fs_accessed := false }
  else
    match write_file parse_from_rfc3339 fs filename content mtime with
    | some (fs2, _) => { status := 200, result := none, fs := fs2, fs_accessed := true }
    | none => { status := 500, result := none, fs := fs, fs_accessed := true }

/-- Embeds the `/remove` handler: validate the filename first, then `safe_remove`. -/
def remove_handler (fs : FsState) (filename : String) : WebResult :=
  if !is_valid_filename filename then
    { status := 400, result := none, fs := fs, fs_accessed := false }
  else
    match safe_remove fs filename with
    | some fs2 => { status := 200, result := none, fs := fs2, fs_accessed := true }
    | none => { status := 500, result := none, fs := fs, fs_accessed := true }

/-- Embeds the `/download` handler: validate the filename first, then read. -/
def download_handler (fs : FsState) (filename : String) : WebResult :=
  if !is_valid_filename filename then
    { status := 400, result := none, fs := fs, fs_accessed := false }
  else
    match fsRead fs filename with
    | some _ => { status := 200, result := none, fs := fs, fs_accessed := true }
    | none => { status := 404, result := none, fs := fs, fs_accessed := true }

/-! ## Auxiliary definitions used by the statements -/

/-- The filename an action is about. -/
def action_filename : SyncAction → String
  | SyncAction.getFile filename _ => filename
  | SyncAction.putFile filename _ => filename

/-- The 400 distinct entries pushed in the output-cap scenario. -/
def c5_entries : List String := (List.range 400).map (fun i => toString i)

/-- The (filename, hash) pair list of a `FileList`; the multiset the top-level
hash is claimed to characterize. -/
def fileListPairs (fl : FileList) : List (String × String) :=
  fl.file_list.map (fun f => (f.filename, f.hash))

/-- Walk of a folder `n` holding one file whose name contains `:` and `|`. -/
def c1_walkA : List (String × String × Nat) := [("a:" ++ hash_str "ca" ++ "|n/b", "cb", 0)]

/-- Walk of a folder `n` holding two plain files `a` and `b`. -/
def c1_walkB : List (String × String × Nat) := [("a", "ca", 1), ("b", "cb", 2)]

/-- A concrete panel as produced by `create foo log 10 20 30 40`. -/
def panelFoo : Panel :=
  { title := "foo", sub_title := "", plugin_name := "log",
    x := 10, y := 20, width := 30, height := 40, output := [] }

/-- A second concrete panel, used as a non-active neighbour. -/
def panelBar : Panel :=
  { title := "bar", sub_title := "", plugin_name := "log",
    x := 0, y := 0, width := 5, height := 5, output := [] }

/-- A concrete server `FileList` used as a witness input. -/
def c2_server : FileList :=
  { file_list := [{ filename := "f", hash := "h1", mtime := 10 },
                  { filename := "g", hash := "h3", mtime := 5 }], hash_str := "sv" }

/-- A concrete client `FileList` used as a witness input. -/
def c2_client : FileList :=
  { file_list := [{ filename := "f", hash := "h2", mtime := 20 }], hash_str := "cl" }

/-- A concrete known client peer in state `Synced`. -/
def c3_peer : NasInfo :=
  { ts := 0, name := "c", onboard := true, nas_state := NasState.synced, tailscale_ip := none }

/-! ## Theorems -/

/-- An `output_push` always appends at the back and drops the overflow from the
front, in one equation (the subtraction truncates at zero). -/
theorem output_push_eq (out : List String) (entry : String) :
    output_push out entry = (out ++ [entry]).drop (out.length + 1 - 300) := by
  unfold output_push MAX_OUTPUT_LEN
  by_cases h : (out ++ [entry]).length > 300
  · rw [if_pos h]
    simp
  · rw [if_neg h]
    have h0 : out.length + 1 - 300 = 0 := by simp at h; omega
    rw [h0, List.drop_zero]

/-- The output of `output_push` never exceeds 300 entries. -/
theorem output_push_length_le (out : List String) (entry : String) :
    (output_push out entry).length ≤ 300 := by
  rw [output_push_eq]
  simp only [List.length_drop, List.length_append, List.length_cons, List.length_nil]
  omega

/-- Folding `output_push` over a list keeps the last 300 entries. -/
theorem foldl_output_push (xs : List String) : ∀ acc : List String, acc.length ≤ 300 →
    List.foldl output_push acc xs = (acc ++ xs).drop ((acc ++ xs).length - 300) := by
  induction xs with
  | nil =>
    intro acc h
    simp only [List.foldl_nil, List.append_nil]
    rw [show acc.length - 300 = 0 from by omega, List.drop_zero]
  | cons x xs ih =>
    intro acc h
    simp only [List.foldl_cons]
    rw [ih (output_push acc x) (output_push_length_le acc x), output_push_eq]
    have hk : acc.length + 1 - 300 ≤ (acc ++ [x]).length := by simp; omega
    rw [← List.drop_append_of_le_length hk, List.drop_drop]
    have hx : (acc ++ [x]) ++ xs = acc ++ x :: xs := by simp
    rw [hx]
    refine congrArg (fun n => (acc ++ x :: xs).drop n) ?_
    simp only [List.length_drop, List.length_append, List.length_cons, List.length_nil]
    omega

/-- C5: after any `output_push` a panel's output has at most 300 entries, with
eviction from the front; pushing 400 entries onto an initially empty panel
leaves exactly 300 entries whose first is the 101st pushed. -/
theorem c5_output_push_cap :
    (∀ out entry, output_push out entry = (out ++ [entry]).drop (out.length + 1 - 300)) ∧
    (∀ out entry, (output_push out entry).length ≤ 300) ∧
    List.foldl output_push [] c5_entries = c5_entries.drop 100 ∧
    (List.foldl output_push [] c5_entries).length = 300 ∧
    (List.foldl output_push [] c5_entries)[0]? = c5_entries[100]? ∧
    c5_entries.length = 400 := by
  have hlen : c5_entries.length = 400 := by
    simp only [c5_entries, List.length_map, List.length_range]
  have hfold : List.foldl output_push [] c5_entries = c5_entries.drop 100 := by
    rw [foldl_output_push c5_entries [] (by simp)]
    simp only [List.nil_append, hlen]
  refine ⟨output_push_eq, output_push_length_le, hfold, ?_, ?_, hlen⟩
  · rw [hfold]
    simp only [List.length_drop, hlen]
  · rw [hfold, List.getElem?_drop]

/-- C9: with the terminal present, `tab` on an empty panel list takes a
remainder by zero and panics (modelled `none`); it is safe exactly when at
least one panel exists, advancing the active index modulo the panel count. -/
theorem c9_tab_on_empty_panels_panics :
    (∀ active, handle_cmd_tab true [] active = none) ∧
    (∀ (panels : List Panel) (active : Nat),
      handle_cmd_tab true panels active = none ↔ panels = []) ∧
    (∀ (panel : Panel) (panels : List Panel) (active : Nat),
      handle_cmd_tab true (panel :: panels) active = some ((active + 1) % (panels.length + 1))) := by
  refine ⟨fun active => rfl, fun panels active => ?_, fun panel panels active => ?_⟩
  · cases panels with
    | nil => simp [handle_cmd_tab, rustRem]
    | cons p ps => simp [handle_cmd_tab, rustRem]
  · simp [handle_cmd_tab, rustRem]

/-- C3 counterexample: a known client peer in state `Err` receiving an
Offboard event reaches the source's `_ => todo!()` arm, which panics; the
peer's state does not become `Unsync`. -/
theorem c3_counterexample :
    handle_nas_event_server "server"
      [{ ts := 0, name := "c1", onboard := true, nas_state := NasState.err,
         tailscale_ip := none }] "c1" NasEvent.offboard = none ∧
    nas_state_after_event_server NasState.err NasEvent.offboard ≠ some NasState.unsync := by
  decide

/-- The Offboard transition applied to the first matching peer, when that peer
is not in state `Err`. -/
theorem apply_offboard_to_first (name : String) (pre post : List NasInfo) (peer : NasInfo)
    (hname : peer.name = name) (hfirst : ∀ q ∈ pre, q.name ≠ name)
    (herr : peer.nas_state ≠ NasState.err) :
    apply_nas_event_to_first name NasEvent.offboard (pre ++ peer :: post) =
      some (pre ++ { peer with nas_state := NasState.unsync } :: post) := by
  induction pre with
  | nil =>
    simp only [List.nil_append, apply_nas_event_to_first]
    rw [if_pos hname]
    cases h : peer.nas_state with
    | err => exact absurd h herr
    | unsync => rfl
    | syncing => rfl
    | synced => rfl
  | cons q pre ih =>
    have hq : q.name ≠ name := hfirst q (by simp)
    simp only [List.cons_append, apply_nas_event_to_first]
    rw [if_neg hq]
    simp only [List.append_eq]
    rw [ih (fun r hr => hfirst r (by simp [hr]))]
    rfl

/-- C3 amended: on the NAS server, a client Offboard event for a known peer in
state `Unsync`, `Syncing` or `Synced` forces that peer's state to `Unsync`,
leaving every other peer untouched; the `Err` state instead panics. -/
theorem c3_client_offboard_forces_unsync (server name : String) (pre post : List NasInfo)
    (peer : NasInfo) (hname : peer.name = name) (hfirst : ∀ q ∈ pre, q.name ≠ name)
    (hclient : name ≠ server) (herr : peer.nas_state ≠ NasState.err) :
    handle_nas_event_server server (pre ++ peer :: post) name NasEvent.offboard =
      some (pre ++ { peer with nas_state := NasState.unsync } :: post) := by
  unfold handle_nas_event_server
  rw [if_pos hclient]
  exact apply_offboard_to_first name pre post peer hname hfirst herr

/-- C3 witness: a synced peer `c` on server `s` is forced to `Unsync`. -/
theorem c3_witness :
    c3_peer.name = "c" ∧ ("c" : String) ≠ "s" ∧ c3_peer.nas_state ≠ NasState.err ∧
    handle_nas_event_server "s" [c3_peer] "c" NasEvent.offboard =
      some [{ c3_peer with nas_state := NasState.unsync }] :=
  ⟨rfl, by decide, by decide,
   c3_client_offboard_forces_unsync "s" "c" [] [] c3_peer rfl (by simp) (by decide) (by decide)⟩

/-- Splitting an all-whitespace character list on whitespace yields no tokens. -/
theorem split_whitespace_eq_nil (l : List Char) (h : ∀ c ∈ l, c.isWhitespace) :
    split_whitespace l = [] := by
  induction l with
  | nil => simp [split_whitespace]
  | cons c cs ih =>
    have hc : c.isWhitespace := h c (by simp)
    simp only [split_whitespace, hc, if_true]
    exact ih (fun x hx => h x (by simp [hx]))

/-- Members of `trim_end l` are members of `l`. -/
theorem mem_trim_end (l : List Char) (c : Char) (hc : c ∈ trim_end l) : c ∈ l := by
  unfold trim_end at hc
  rw [List.mem_reverse] at hc
  exact List.mem_reverse.mp ((List.dropWhile_sublist _).subset hc)

/-- Taking up to the first `#` of a whitespace prefix returns that prefix. -/
theorem takeWhile_ws_then_hash (pre rest : List Char) (h : ∀ c ∈ pre, c.isWhitespace) :
    (pre ++ '#' :: rest).takeWhile (fun c => c != '#') = pre := by
  induction pre with
  | nil => simp [List.takeWhile_cons]
  | cons c pre ih =>
    have hc : c.isWhitespace := h c (by simp)
    have hcne : (c != '#') = true := by
      have hne : c ≠ '#' := by
        intro he
        rw [he] at hc
        exact absurd hc (by decide)
      simp [hne]
    simp only [List.cons_append, List.takeWhile_cons, hcne, if_true]
    rw [ih (fun x hx => h x (by simp [hx]))]

/-- C7: a command line that is empty, all whitespace, or whose first
non-whitespace character is `#` dispatches as the empty command: the router
returns without executing anything and without emitting any log message. -/
theorem c7_comment_line_dispatches_empty (cmd : String)
    (h : cmd.data = [] ∨ (∀ c ∈ cmd.data, c.isWhitespace) ∨
      ∃ pre rest, cmd.data = pre ++ '#' :: rest ∧ ∀ c ∈ pre, c.isWhitespace) :
    parse_cmd cmd = CmdDispatch.empty := by
  rcases h with h | h | ⟨pre, rest, hsplit, hws⟩
  · simp [parse_cmd, strip_comment, split_once_hash, h, split_whitespace]
  · have hnotin : '#' ∉ cmd.data := fun hm => absurd (h _ hm) (by decide)
    simp [parse_cmd, strip_comment, split_once_hash, hnotin,
      split_whitespace_eq_nil cmd.data h]
  · have ht : ((pre ++ '#' :: rest).takeWhile (fun c => c != '#')) = pre :=
      takeWhile_ws_then_hash pre rest hws
    have hnil := split_whitespace_eq_nil (trim_end pre)
      (fun c hc => hws c (mem_trim_end pre c hc))
    simp [parse_cmd, strip_comment, split_once_hash, hsplit, ht, hnil]

/-- C7 witness: a pure comment line is a no-op. -/
theorem c7_witness :
    ((("   # hello") : String).data = [' ', ' ', ' '] ++ '#' :: " hello".data ∧
      ∀ c ∈ ([' ', ' ', ' '] : List Char), c.isWhitespace) ∧
    parse_cmd "   # hello" = CmdDispatch.empty := by
  refine ⟨⟨by decide, by decide⟩, ?_⟩
  exact c7_comment_line_dispatches_empty "   # hello"
    (Or.inr (Or.inr ⟨[' ', ' ', ' '], " hello".data, by decide, by decide⟩))

/-- The loop of `handle_cmd_size` maps the indexed mutation over the list. -/
theorem handle_cmd_size_go_getElem? (active : Nat) (action : String) :
    ∀ (l : List Panel) (idx j : Nat),
      (handle_cmd_size_go active action idx l)[j]? =
        (l[j]?).map (fun panel => if idx + j = active then sizeApply action panel else panel) := by
  intro l
  induction l with
  | nil => intro idx j; simp [handle_cmd_size_go]
  | cons p rest ih =>
    intro idx j
    cases j with
    | zero => simp [handle_cmd_size_go]
    | succ j =>
      simp only [handle_cmd_size_go, List.getElem?_cons_succ, ih (idx + 1) j]
      have harith : idx + 1 + j = idx + (j + 1) := by omega
      rw [harith]

/-- The loop of `handle_cmd_size` preserves the number of panels. -/
theorem handle_cmd_size_go_length (active : Nat) (action : String) :
    ∀ (l : List Panel) (idx : Nat), (handle_cmd_size_go active action idx l).length = l.length := by
  intro l
  induction l with
  | nil => intro idx; rfl
  | cons p rest ih => intro idx; simp [handle_cmd_size_go, ih]

/-- C8: `size` with `+x`, `-x`, `+y` or `-y` changes only the active panel, adjusting only the
targeted dimension by one (increments wrap at the u16 bound, decrements are
ignored at 2 so the dimensions never drop below 2); after
`create foo log 10 20 30 40`, `size +x`, `size +x`, `size -x` the active
panel's width is 31. -/
theorem c8_size_touches_only_active_panel (panels : List Panel) (active : Nat)
    (action : String) (p : Panel) :
    (handle_cmd_size panels active action).length = panels.length ∧
    (∀ j, j ≠ active → (handle_cmd_size panels active action)[j]? = panels[j]?) ∧
    (panels[active]? = some p →
      (handle_cmd_size panels active action)[active]? = some (sizeApply action p)) ∧
    sizeApply "+x" p = { p with width := (p.width + 1) % 65536 } ∧
    sizeApply "-x" p = (if 2 < p.width then { p with width := p.width - 1 } else p) ∧
    sizeApply "+y" p = { p with height := (p.height + 1) % 65536 } ∧
    sizeApply "-y" p = (if 2 < p.height then { p with height := p.height - 1 } else p) ∧
    (p.width < 65535 → (sizeApply "+x" p).width = p.width + 1) ∧
    (p.height < 65535 → (sizeApply "+y" p).height = p.height + 1) ∧
    (2 ≤ p.width → 2 ≤ (sizeApply "-x" p).width) ∧
    (2 ≤ p.height → 2 ≤ (sizeApply "-y" p).height) ∧
    (p.width = 2 → sizeApply "-x" p = p) ∧
    (p.height = 2 → sizeApply "-y" p = p) ∧
    ((panelCreate "foo" "log" "10" "20" "30" "40").map (fun q =>
      (handle_cmd_size (handle_cmd_size (handle_cmd_size [q] 0 "+x") 0 "+x") 0 "-x").map
        Panel.width)) = some [31] := by
  have hgo := handle_cmd_size_go_getElem? active action panels 0
  refine ⟨handle_cmd_size_go_length active action panels 0, ?_, ?_, rfl, rfl, rfl, rfl,
    ?_, ?_, ?_, ?_, ?_, ?_, by decide⟩
  · intro j hj
    rw [handle_cmd_size, hgo j]
    simp only [Nat.zero_add]
    simp [hj]
  · intro hp
    rw [handle_cmd_size, hgo active, hp]
    simp
  · intro h
    show ((p.width + 1) % 65536) = p.width + 1
    omega
  · intro h
    show ((p.height + 1) % 65536) = p.height + 1
    omega
  · intro h
    by_cases hw : 2 < p.width
    · have hs : sizeApply "-x" p = { p with width := p.width - 1 } := by
        simp [sizeApply, hw]
      rw [hs]
      show 2 ≤ p.width - 1
      omega
    · have hs : sizeApply "-x" p = p := by simp [sizeApply, hw]
      rw [hs]
      exact h
  · intro h
    by_cases hw : 2 < p.height
    · have hs : sizeApply "-y" p = { p with height := p.height - 1 } := by
        simp [sizeApply, hw]
      rw [hs]
      show 2 ≤ p.height - 1
      omega
    · have hs : sizeApply "-y" p = p := by simp [sizeApply, hw]
      rw [hs]
      exact h
  · intro h
    show (if 2 < p.width then { p with width := p.width - 1 } else p) = p
    rw [if_neg (by omega)]
  · intro h
    show (if 2 < p.height then { p with height := p.height - 1 } else p) = p
    rw [if_neg (by omega)]

/-- C8 witness: with panels `[foo, bar]` and `foo` active, `size +x` widens
only `foo` by one. -/
theorem c8_witness :
    (([panelFoo, panelBar] : List Panel)[0]? = some panelFoo) ∧ (1 : Nat) ≠ 0 ∧
    panelFoo.width < 65535 ∧
    (handle_cmd_size [panelFoo, panelBar] 0 "+x")[0]? = some (sizeApply "+x" panelFoo) ∧
    (handle_cmd_size [panelFoo, panelBar] 0 "+x")[1]? = ([panelFoo, panelBar] : List Panel)[1]? ∧
    (sizeApply "+x" panelFoo).width = panelFoo.width + 1 := by
  refine ⟨by decide, by decide, by decide, ?_, ?_, ?_⟩
  · exact (c8_size_touches_only_active_panel [panelFoo, panelBar] 0 "+x" panelFoo).2.2.1
      (by decide)
  · exact (c8_size_touches_only_active_panel [panelFoo, panelBar] 0 "+x" panelFoo).2.1 1
      (by decide)
  · exact (c8_size_touches_only_active_panel [panelFoo, panelBar] 0 "+x"
      panelFoo).2.2.2.2.2.2.2.1 (by decide)

/-- A `find_by_filename` miss means no entry carries the name. -/
theorem find_by_filename_eq_none_iff (fl : FileList) (name : String) :
    fl.find_by_filename name = none ↔ ∀ f ∈ fl.file_list, f.filename ≠ name := by
  simp [FileList.find_by_filename, List.find?_eq_none]

/-- A `find_by_filename` hit is a member carrying the name. -/
theorem find_by_filename_some (fl : FileList) (name : String) (cf : FileMeta)
    (h : fl.find_by_filename name = some cf) : cf ∈ fl.file_list ∧ cf.filename = name := by
  refine ⟨List.mem_of_find?_eq_some h, ?_⟩
  have := List.find?_some h
  simpa using this

/-- With pairwise-distinct filenames, `find?` by a member's filename returns
that very member. -/
theorem find_first_nodup (l : List FileMeta) (h : (l.map FileMeta.filename).Nodup)
    (cf : FileMeta) (hm : cf ∈ l) :
    l.find? (fun f => f.filename == cf.filename) = some cf := by
  induction l with
  | nil => cases hm
  | cons a t ih =>
    obtain ⟨hx, hnd⟩ : a.filename ∉ t.map FileMeta.filename ∧ (t.map FileMeta.filename).Nodup :=
      by simpa [List.nodup_cons] using h
    rcases List.mem_cons.mp hm with rfl | hmt
    · simp [List.find?_cons]
    · have hne : (a.filename == cf.filename) = false := by
        simp only [beq_eq_false_iff_ne, ne_eq]
        intro he
        exact hx (he ▸ List.mem_map_of_mem FileMeta.filename hmt)
      simp only [List.find?_cons, hne]
      exact ih hnd hmt

/-- C2: with the `FileList` invariant of pairwise-distinct filenames, the plan
contains exactly the claimed actions: a `PutFile` with the client mtime or a
`GetFile` with the server mtime for common filenames whose entries differ in
hash or mtime (put exactly when the client mtime is strictly newer), a
`GetFile` per server-only filename, a `PutFile` per client-only filename, and
nothing else. -/
theorem c2_plan_characterization (S C : FileList)
    (hS : (S.file_list.map FileMeta.filename).Nodup)
    (hC : (C.file_list.map FileMeta.filename).Nodup) :
    ∀ a : SyncAction, a ∈ compare_and_generate_actions S C ↔
      ((∃ sf ∈ S.file_list, ∃ cf ∈ C.file_list, cf.filename = sf.filename ∧
          (cf.hash ≠ sf.hash ∨ cf.mtime ≠ sf.mtime) ∧
          a = if cf.mtime > sf.mtime then SyncAction.putFile sf.filename cf.mtime
              else SyncAction.getFile sf.filename sf.mtime) ∨
       (∃ sf ∈ S.file_list, (∀ cf ∈ C.file_list, cf.filename ≠ sf.filename) ∧
          a = SyncAction.getFile sf.filename sf.mtime) ∨
       (∃ cf ∈ C.file_list, (∀ sf ∈ S.file_list, sf.filename ≠ cf.filename) ∧
          a = SyncAction.putFile cf.filename cf.mtime)) := by
  intro a
  unfold compare_and_generate_actions
  rw [List.mem_append, List.mem_filterMap, List.mem_filterMap]
  constructor
  · rintro (⟨sf, hsf, hg⟩ | ⟨cf, hcf, hg⟩)
    · unfold server_pass at hg
      cases hfind : C.find_by_filename sf.filename with
      | some cf =>
        simp only [hfind] at hg
        obtain ⟨hcfmem, hcfname⟩ := find_by_filename_some C sf.filename cf hfind
        by_cases hmis : cf.hash ≠ sf.hash ∨ cf.mtime ≠ sf.mtime
        · rw [if_pos hmis] at hg
          exact Or.inl ⟨sf, hsf, cf, hcfmem, hcfname, hmis, (Option.some_inj.mp hg).symm⟩
        · rw [if_neg hmis] at hg
          cases hg
      | none =>
        simp only [hfind] at hg
        have hnone := (find_by_filename_eq_none_iff C sf.filename).mp hfind
        exact Or.inr (Or.inl ⟨sf, hsf, hnone, (Option.some_inj.mp hg).symm⟩)
    · unfold client_pass at hg
      by_cases hfind : (S.find_by_filename cf.filename).isNone
      · simp only [hfind, if_true] at hg
        have hnone : S.find_by_filename cf.filename = none :=
          Option.isNone_iff_eq_none.mp hfind
        have hall := (find_by_filename_eq_none_iff S cf.filename).mp hnone
        exact Or.inr (Or.inr ⟨cf, hcf, hall, (Option.some_inj.mp hg).symm⟩)
      · simp only [hfind] at hg
        simp at hg
  · rintro (⟨sf, hsf, cf, hcf, hname, hmis, ha⟩ | ⟨sf, hsf, hnone, ha⟩ | ⟨cf, hcf, hnone, ha⟩)
    · refine Or.inl ⟨sf, hsf, ?_⟩
      have hfind : C.find_by_filename sf.filename = some cf := by
        unfold FileList.find_by_filename
        rw [← hname]
        exact find_first_nodup C.file_list hC cf hcf
      unfold server_pass
      simp only [hfind]
      rw [if_pos hmis, ha]
    · refine Or.inl ⟨sf, hsf, ?_⟩
      have hfind : C.find_by_filename sf.filename = none :=
        (find_by_filename_eq_none_iff C sf.filename).mpr hnone
      unfold server_pass
      simp only [hfind, ha]
    · refine Or.inr ⟨cf, hcf, ?_⟩
      have hfind : S.find_by_filename cf.filename = none :=
        (find_by_filename_eq_none_iff S cf.filename).mpr hnone
      unfold client_pass
      rw [hfind]
      simp [ha]

/-- C2 witness: a two-file server versus a one-file client with a hash
mismatch and newer client mtime; the plan membership matches the claim. -/
theorem c2_witness :
    (c2_server.file_list.map FileMeta.filename).Nodup ∧
    (c2_client.file_list.map FileMeta.filename).Nodup ∧
    (SyncAction.putFile "f" 20 ∈ compare_and_generate_actions c2_server c2_client ↔
      ((∃ sf ∈ c2_server.file_list, ∃ cf ∈ c2_client.file_list, cf.filename = sf.filename ∧
          (cf.hash ≠ sf.hash ∨ cf.mtime ≠ sf.mtime) ∧
          SyncAction.putFile "f" 20 =
            if cf.mtime > sf.mtime then SyncAction.putFile sf.filename cf.mtime
            else SyncAction.getFile sf.filename sf.mtime) ∨
       (∃ sf ∈ c2_server.file_list, (∀ cf ∈ c2_client.file_list, cf.filename ≠ sf.filename) ∧
          SyncAction.putFile "f" 20 = SyncAction.getFile sf.filename sf.mtime) ∨
       (∃ cf ∈ c2_client.file_list, (∀ sf ∈ c2_server.file_list, sf.filename ≠ cf.filename) ∧
          SyncAction.putFile "f" 20 = SyncAction.putFile cf.filename cf.mtime))) :=
  ⟨by decide, by decide,
   c2_plan_characterization c2_server c2_client (by decide) (by decide) (SyncAction.putFile "f" 20)⟩

/-- A `filterMap` whose emitted actions inherit the entry's filename yields at
most one action per filename when the filenames are pairwise distinct, and
yields one only for filenames present in the list. -/
theorem filterMap_keyed_filter_length (fname : String) (g : FileMeta → Option SyncAction)
    (hkey : ∀ x a, g x = some a → action_filename a = x.filename) :
    ∀ l : List FileMeta, (l.map FileMeta.filename).Nodup →
      ((l.filterMap g).filter (fun a => action_filename a == fname)).length ≤ 1 ∧
      (((l.filterMap g).filter (fun a => action_filename a == fname)) ≠ [] →
        fname ∈ l.map FileMeta.filename) := by
  intro l
  induction l with
  | nil => simp
  | cons x t ih =>
    intro hnd
    obtain ⟨hx, hnd'⟩ : x.filename ∉ t.map FileMeta.filename ∧ (t.map FileMeta.filename).Nodup :=
      by simpa [List.nodup_cons] using hnd
    rw [List.filterMap_cons]
    cases hg : g x with
    | none =>
      refine ⟨(ih hnd').1, fun hne => ?_⟩
      simp only [List.map_cons, List.mem_cons]
      exact Or.inr ((ih hnd').2 hne)
    | some a =>
      rw [List.filter_cons]
      by_cases hfa : (action_filename a == fname) = true
      · rw [if_pos hfa]
        have hxf : x.filename = fname := by
          have hk := hkey x a hg
          rw [← hk]
          exact (beq_iff_eq.mp hfa).symm ▸ rfl
        have hrest : (t.filterMap g).filter (fun a => action_filename a == fname) = [] := by
          rw [List.filter_eq_nil_iff]
          intro b hb
          obtain ⟨y, hy, hgy⟩ := List.mem_filterMap.mp hb
          have hbf := hkey y b hgy
          simp only [hbf, beq_iff_eq]
          intro he
          exact hx (hxf ▸ he ▸ List.mem_map_of_mem FileMeta.filename hy)
        rw [hrest]
        exact ⟨by simp, fun _ => by simp [← hxf]⟩
      · rw [if_neg hfa]
        refine ⟨(ih hnd').1, fun hne => ?_⟩
        simp only [List.map_cons, List.mem_cons]
        exact Or.inr ((ih hnd').2 hne)

/-- C10: with pairwise-distinct filenames on both sides, the plan carries at
most one action per filename; in particular no filename gets both a `GetFile`
and a `PutFile`. -/
theorem c10_at_most_one_action_per_filename (S C : FileList)
    (hS : (S.file_list.map FileMeta.filename).Nodup)
    (hC : (C.file_list.map FileMeta.filename).Nodup) (fname : String) :
    ((compare_and_generate_actions S C).filter
      (fun a => action_filename a == fname)).length ≤ 1 := by
  have hkeyS : ∀ (x : FileMeta) (a : SyncAction),
      server_pass C x = some a → action_filename a = x.filename := by
    intro x a hg
    unfold server_pass at hg
    cases hfind : C.find_by_filename x.filename with
    | some cf =>
      simp only [hfind] at hg
      by_cases hmis : cf.hash ≠ x.hash ∨ cf.mtime ≠ x.mtime
      · rw [if_pos hmis] at hg
        rw [← Option.some_inj.mp hg]
        by_cases hgt : cf.mtime > x.mtime
        · rw [if_pos hgt]
          rfl
        · rw [if_neg hgt]
          rfl
      · rw [if_neg hmis] at hg
        cases hg
    | none =>
      simp only [hfind] at hg
      rw [← Option.some_inj.mp hg]
      rfl
  have hkeyC : ∀ (x : FileMeta) (a : SyncAction),
      client_pass S x = some a → action_filename a = x.filename := by
    intro x a hg
    unfold client_pass at hg
    by_cases hfind : (S.find_by_filename x.filename).isNone
    · simp only [hfind, if_true] at hg
      rw [← Option.some_inj.mp hg]
      rfl
    · simp only [hfind, if_false] at hg
      cases hg
  have h1 := filterMap_keyed_filter_length fname (server_pass C) hkeyS S.file_list hS
  have h2 := filterMap_keyed_filter_length fname (client_pass S) hkeyC C.file_list hC
  unfold compare_and_generate_actions
  rw [List.filter_append, List.length_append]
  by_cases hempty :
      ((S.file_list.filterMap (server_pass C)).filter
        (fun a => action_filename a == fname)) = []
  · rw [hempty]
    simpa using h2.1
  · have hmem : fname ∈ S.file_list.map FileMeta.filename := h1.2 hempty
    obtain ⟨sf, hsfmem, hsfname⟩ := List.mem_map.mp hmem
    have h2nil :
        ((C.file_list.filterMap (client_pass S)).filter
          (fun a => action_filename a == fname)) = [] := by
      rw [List.filter_eq_nil_iff]
      intro b hb
      obtain ⟨cf, hcf, hgcf⟩ := List.mem_filterMap.mp hb
      have hbf : action_filename b = cf.filename := hkeyC cf b hgcf
      unfold client_pass at hgcf
      by_cases hfind : (S.find_by_filename cf.filename).isNone
      · simp only [hbf, beq_iff_eq]
        intro he
        have hnone : S.find_by_filename cf.filename = none :=
          Option.isNone_iff_eq_none.mp hfind
        have hall := (find_by_filename_eq_none_iff S cf.filename).mp hnone
        exact hall sf hsfmem (by rw [hsfname, ← he])
      · simp only [hfind, if_false] at hgcf
        cases hgcf
    rw [h2nil]
    simpa using h1.1

/-- C10 witness: the two-file against one-file plan has at most one action
for the filename `f`. -/
theorem c10_witness :
    (c2_server.file_list.map FileMeta.filename).Nodup ∧
    (c2_client.file_list.map FileMeta.filename).Nodup ∧
    ((compare_and_generate_actions c2_server c2_client).filter
      (fun a => action_filename a == "f")).length ≤ 1 :=
  ⟨by decide, by decide,
   c10_at_most_one_action_per_filename c2_server c2_client (by decide) (by decide) "f"⟩

/-- A base64 alphabet hit gives the character back through `valToChar`. -/
theorem charVal_inv (c : Char) (v : Nat) (h : charVal c = some v) :
    v < 64 ∧ valToChar v = c := by
  unfold charVal at h
  have h1 := List.find?_some h
  have h2 := List.mem_of_find?_eq_some h
  rw [List.mem_range] at h2
  exact ⟨h2, by simpa using h1⟩

/-- Encoding a successfully decoded base64 string reproduces it exactly (the
`STANDARD` engine only accepts canonical encodings). -/
theorem b64_encode_decode : ∀ (cs : List Char) (bs : List Nat),
    b64decodeChars cs = some bs → b64encodeBytes bs = cs := by
  intro cs
  induction cs using b64decodeChars.induct with
  | case1 =>
    intro bs h
    simp only [b64decodeChars, Option.some_inj] at h
    rw [← h]
    rfl
  | case2 c1 c2 c4 rest v1 v2 h2 h1 hcond =>
    intro bs h
    obtain ⟨hv1lt, hvc1⟩ := charVal_inv c1 v1 h1
    obtain ⟨hv2lt, hvc2⟩ := charVal_inv c2 v2 h2
    simp only [b64decodeChars, h1, h2] at h
    simp only [if_true] at h
    rw [if_pos hcond, Option.some_inj] at h
    obtain ⟨hc4, hrest, hv2m⟩ := hcond
    subst hc4 hrest
    rw [← h]
    simp only [b64encodeBytes]
    have e1 : (v1 * 4 + v2 / 16) / 4 = v1 := by omega
    have e2 : (v1 * 4 + v2 / 16) % 4 * 16 = v2 := by omega
    rw [e1, e2, hvc1, hvc2]
  | case3 c1 c2 c4 rest v1 v2 h2 h1 hcond =>
    intro bs h
    simp only [b64decodeChars, h1, h2] at h
    simp only [if_true] at h
    rw [if_neg hcond] at h
    cases h
  | case4 c1 c2 c3 rest v1 v2 h2 h1 hc3 v3 hv3 hcond =>
    intro bs h
    obtain ⟨hv1lt, hvc1⟩ := charVal_inv c1 v1 h1
    obtain ⟨hv2lt, hvc2⟩ := charVal_inv c2 v2 h2
    obtain ⟨hv3lt, hvc3⟩ := charVal_inv c3 v3 hv3
    simp only [b64decodeChars, h1, h2] at h
    rw [if_neg hc3] at h
    simp only [hv3] at h
    simp only [if_true] at h
    rw [if_pos hcond, Option.some_inj] at h
    obtain ⟨hrest, hv3m⟩ := hcond
    subst hrest
    rw [← h]
    simp only [b64encodeBytes]
    have e1 : (v1 * 4 + v2 / 16) / 4 = v1 := by omega
    have e2 : (v1 * 4 + v2 / 16) % 4 * 16 + (v2 % 16 * 16 + v3 / 4) / 16 = v2 := by omega
    have e3 : (v2 % 16 * 16 + v3 / 4) % 16 * 4 = v3 := by omega
    rw [e1, e2, e3, hvc1, hvc2, hvc3]
  | case5 c1 c2 c3 rest v1 v2 h2 h1 hc3 v3 hv3 hcond =>
    intro bs h
    simp only [b64decodeChars, h1, h2] at h
    rw [if_neg hc3] at h
    simp only [hv3] at h
    simp only [if_true] at h
    rw [if_neg hcond] at h
    cases h
  | case6 c1 c2 c3 c4 rest v1 v2 h2 h1 hc3 v3 hv3 hc4 v4 tail hrest hv4 ih =>
    intro bs h
    obtain ⟨hv1lt, hvc1⟩ := charVal_inv c1 v1 h1
    obtain ⟨hv2lt, hvc2⟩ := charVal_inv c2 v2 h2
    obtain ⟨hv3lt, hvc3⟩ := charVal_inv c3 v3 hv3
    obtain ⟨hv4lt, hvc4⟩ := charVal_inv c4 v4 hv4
    simp only [b64decodeChars, h1, h2] at h
    rw [if_neg hc3] at h
    simp only [hv3] at h
    rw [if_neg hc4] at h
    simp only [hv4, hrest, Option.some_inj] at h
    rw [← h]
    simp only [b64encodeBytes]
    have e1 : (v1 * 4 + v2 / 16) / 4 = v1 := by omega
    have e2 : (v1 * 4 + v2 / 16) % 4 * 16 + (v2 % 16 * 16 + v3 / 4) / 16 = v2 := by omega
    have e3 : (v2 % 16 * 16 + v3 / 4) % 16 * 4 + (v3 % 4 * 64 + v4) / 64 = v3 := by omega
    have e4 : (v3 % 4 * 64 + v4) % 64 = v4 := by omega
    rw [e1, e2, e3, e4, hvc1, hvc2, hvc3, hvc4, ih tail hrest]
  | case7 c1 c2 c3 c4 rest v1 v2 h2 h1 hc3 v3 hv3 hc4 hfalse ih =>
    intro bs h
    simp only [b64decodeChars, h1, h2] at h
    rw [if_neg hc3] at h
    simp only [hv3] at h
    rw [if_neg hc4] at h
    cases hv4 : charVal c4 with
    | none => simp [hv4] at h
    | some v4 =>
      cases hres : b64decodeChars rest with
      | none => simp [hv4, hres] at h
      | some tail => exact (hfalse v4 tail hv4 hres).elim
  | case8 c1 c2 c3 c4 rest v1 v2 h2 h1 hc3 hnone =>
    intro bs h
    simp only [b64decodeChars, h1, h2] at h
    rw [if_neg hc3] at h
    simp [hnone] at h
  | case9 c1 c2 c3 c4 rest hfalse =>
    intro bs h
    simp only [b64decodeChars] at h
    cases hv1 : charVal c1 with
    | none => simp [hv1] at h
    | some v1 =>
      cases hv2 : charVal c2 with
      | none => simp [hv1, hv2] at h
      | some v2 => exact (hfalse v1 v2 hv1 hv2).elim
  | case10 t hnil hshape =>
    intro bs h
    rcases t with _ | ⟨a, _ | ⟨b, _ | ⟨c, _ | ⟨d, r⟩⟩⟩⟩
    · exact (hnil rfl).elim
    · simp [b64decodeChars] at h
    · simp [b64decodeChars] at h
    · simp [b64decodeChars] at h
    · exact (hshape a b c d r rfl).elim

/-- String-level base64 round trip. -/
theorem b64_encode_decode_str (content : String) (bs : List Nat)
    (h : b64decode content = some bs) : b64encode bs = content := by
  unfold b64decode at h
  unfold b64encode
  rw [b64_encode_decode content.data bs h]

/-- Reading back a just-written file yields the written bytes. -/
theorem fsRead_fsInsert (fs : FsState) (f : String) (b : List Nat) (m : Int) :
    fsRead (fsInsert fs f b m) f = some b := by
  induction fs with
  | nil => simp [fsInsert, fsRead]
  | cons e rest ih =>
    by_cases he : e.1 = f
    · simp [fsInsert, he, fsRead]
    · simp only [fsInsert, if_neg he]
      unfold fsRead
      rw [List.find?_cons]
      have hne : (e.1 == f) = false := by simp [he]
      rw [hne]
      exact ih

/-- After a successful store, re-running `write_file` short-circuits. -/
theorem write_file_after_store (parse_from_rfc3339 : String → Option Int) (fs : FsState)
    (filename content mtime : String) (fs₁ : FsState) (wrote : Bool)
    (h : write_file_store parse_from_rfc3339 fs filename content mtime = some (fs₁, wrote)) :
    write_file parse_from_rfc3339 fs₁ filename content mtime = some (fs₁, false) := by
  unfold write_file_store at h
  cases hdec : b64decode content with
  | none => simp [hdec] at h
  | some decoded =>
    cases hts : parse_from_rfc3339 mtime with
    | none => simp [hdec, hts] at h
    | some ts =>
      simp only [hdec, hts] at h
      cases Option.some_inj.mp h
      unfold write_file
      simp only [fsRead_fsInsert]
      rw [if_pos (b64_encode_decode_str content decoded hdec)]

/-- C6: if `write_file` succeeds, an immediate second call with the same
arguments short-circuits: it returns `Ok` without performing any filesystem
write, leaving the file's bytes and mtime untouched, because the base64
encoding of the file's current content equals the incoming content. -/
theorem c6_write_file_short_circuits (parse_from_rfc3339 : String → Option Int)
    (fs : FsState) (filename content mtime : String) (fs₁ : FsState) (wrote : Bool)
    (h : write_file parse_from_rfc3339 fs filename content mtime = some (fs₁, wrote)) :
    write_file parse_from_rfc3339 fs₁ filename content mtime = some (fs₁, false) := by
  unfold write_file at h
  cases hread : fsRead fs filename with
  | some bytes =>
    simp only [hread] at h
    by_cases hb : b64encode bytes = content
    · rw [if_pos hb] at h
      cases Option.some_inj.mp h
      unfold write_file
      simp only [hread]
      rw [if_pos hb]
    · rw [if_neg hb] at h
      exact write_file_after_store parse_from_rfc3339 fs filename content mtime fs₁ wrote h
  | none =>
    simp only [hread] at h
    exact write_file_after_store parse_from_rfc3339 fs filename content mtime fs₁ wrote h

/-- C6 witness: writing base64 `QQ==` (the byte `A`) to a fresh file succeeds,
and the immediate second call short-circuits with no write. -/
theorem c6_witness :
    write_file (fun _ => some 0) [] "f" "QQ==" "t" = some ([("f", [65], 0)], true) ∧
    write_file (fun _ => some 0) [("f", [65], 0)] "f" "QQ==" "t" =
      some ([("f", [65], 0)], false) := by
  have h1 : write_file (fun _ => some 0) [] "f" "QQ==" "t" =
      some ([("f", [65], 0)], true) := by decide
  exact ⟨h1,
    c6_write_file_short_circuits (fun _ => some 0) [] "f" "QQ==" "t" [("f", [65], 0)] true h1⟩

/-- C4 counterexample: `/verify_hash` performs no filename validation; even for
the absolute path `/etc/passwd` it does not reject (status 200, a result is
produced) and it attempts the filesystem read. -/
theorem c4_counterexample :
    is_valid_filename "/etc/passwd" = false ∧
    verify_hash_handler [] "/etc/passwd" "h" =
      { status := 200, result := some 1, fs := [], fs_accessed := true } := by
  constructor
  · decide
  · decide

/-- C4 amended: `/upload`, `/remove` and `/download` reject a filename that is
absolute or contains a non-normal, non-current-dir component with a 400,
leaving the filesystem untouched; `/verify_hash` performs no filename
validation and always attempts the read, answering 200. -/
theorem c4_invalid_filename_rejected (parse_from_rfc3339 : String → Option Int)
    (fs : FsState) (filename content mtime req_hash : String)
    (h : is_valid_filename filename = false) :
    upload_handler parse_from_rfc3339 fs filename content mtime =
      { status := 400, result := none, fs := fs, fs_accessed := false } ∧
    remove_handler fs filename =
      { status := 400, result := none, fs := fs, fs_accessed := false } ∧
    download_handler fs filename =
      { status := 400, result := none, fs := fs, fs_accessed := false } ∧
    (verify_hash_handler fs filename req_hash).status = 200 ∧
    (verify_hash_handler fs filename req_hash).fs_accessed = true := by
  refine ⟨?_, ?_, ?_, rfl, rfl⟩
  · simp [upload_handler, h]
  · simp [remove_handler, h]
  · simp [download_handler, h]

/-- C4 witness: a parent-directory traversal is rejected by `/upload` without
touching the filesystem. -/
theorem c4_witness :
    is_valid_filename "../secret" = false ∧
    upload_handler (fun _ => some 0) [] "../secret" "QQ==" "t" =
      { status := 400, result := none, fs := [], fs_accessed := false } :=
  ⟨by decide,
   (c4_invalid_filename_rejected (fun _ => some 0) [] "../secret" "QQ==" "t" "h" (by decide)).1⟩

/-- String append cancels on the left. -/
theorem sappend_left_cancel (a : String) {s t : String} (h : a ++ s = a ++ t) : s = t := by
  apply String.ext
  have hd := congrArg String.data h
  rw [String.data_append, String.data_append] at hd
  exact List.append_cancel_left hd

/-- Joining a single string with a separator is that string. -/
theorem intercalate_singleton (sep s : String) : String.intercalate sep [s] = s := by
  simp [String.intercalate, String.intercalate.go]

/-- Joining two strings with a separator. -/
theorem intercalate_pair (sep a b : String) :
    String.intercalate sep [a, b] = a ++ sep ++ b := by
  simp [String.intercalate, String.intercalate.go]

/-- Merging two adjacent literal pieces in an append chain. -/
theorem lit_merge (a b c : String) (h : a ++ b = c) (s : String) :
    a ++ (b ++ s) = c ++ s := by
  rw [← String.append_assoc, h]

/-- Two key-sorted lists of (filename, hash) pairs with distinct keys that are
permutations of one another are equal. -/
theorem sorted_nodup_perm_eq : ∀ (l1 l2 : List (String × String)),
    l1.Perm l2 → l1.Pairwise (fun a b => a.1 ≤ b.1) → l2.Pairwise (fun a b => a.1 ≤ b.1) →
    (l1.map Prod.fst).Nodup → l1 = l2 := by
  intro l1
  induction l1 with
  | nil =>
    intro l2 hp _ _ _
    rw [hp.symm.eq_nil]
  | cons a t ih =>
    intro l2 hp hs1 hs2 hnd
    cases l2 with
    | nil => cases hp.eq_nil
    | cons b u =>
      have hab : a = b := by
        rcases List.mem_cons.mp (hp.subset (List.mem_cons_self a t)) with h | hau
        · exact h
        · rcases List.mem_cons.mp (hp.symm.subset (List.mem_cons_self b u)) with h | hbt
          · exact h.symm
          · have h1 : a.1 ≤ b.1 := (List.pairwise_cons.mp hs1).1 b hbt
            have h2 : b.1 ≤ a.1 := (List.pairwise_cons.mp hs2).1 a hau
            obtain ⟨hnotin, _⟩ := List.nodup_cons.mp (by simpa only [List.map_cons] using hnd)
            have hm : a.1 ∈ t.map Prod.fst := by
              rw [le_antisymm h1 h2]
              exact List.mem_map_of_mem Prod.fst hbt
            exact (hnotin hm).elim
      subst hab
      have ht : t.Perm u := hp.cons_inv
      rw [ih u ht (List.pairwise_cons.mp hs1).2 (List.pairwise_cons.mp hs2).2
        (List.nodup_cons.mp (by simpa only [List.map_cons] using hnd)).2]

/-- The sort order used by `FileList::new` is transitive. -/
theorem fileMetaLe_trans : ∀ a b c : FileMeta,
    fileMetaLe a b = true → fileMetaLe b c = true → fileMetaLe a c = true := by
  intro a b c hab hbc
  simp only [fileMetaLe, decide_eq_true_eq] at hab hbc ⊢
  exact le_trans hab hbc

/-- The sort order used by `FileList::new` is total. -/
theorem fileMetaLe_total : ∀ a b : FileMeta, (fileMetaLe a b || fileMetaLe b a) = true := by
  intro a b
  simp only [fileMetaLe, Bool.or_eq_true, decide_eq_true_eq]
  exact le_total a.filename b.filename

/-- Two key-sorted `FileMeta` lists with distinct filenames and the same
(filename, hash) multiset serialize identically. -/
theorem serialize_eq_of_pairs_perm (l1 l2 : List FileMeta)
    (hs1 : List.Pairwise (fun a b => fileMetaLe a b = true) l1)
    (hs2 : List.Pairwise (fun a b => fileMetaLe a b = true) l2)
    (hnd1 : (l1.map FileMeta.filename).Nodup)
    (hperm : (l1.map (fun f => (f.filename, f.hash))).Perm
             (l2.map (fun f => (f.filename, f.hash)))) :
    l1.map (fun f => f.filename ++ ":" ++ f.hash) =
      l2.map (fun f => f.filename ++ ":" ++ f.hash) := by
  have h1 : (l1.map (fun f => (f.filename, f.hash))).Pairwise (fun a b => a.1 ≤ b.1) :=
    hs1.map (fun f => (f.filename, f.hash)) (fun a b hab => by simpa [fileMetaLe] using hab)
  have h2 : (l2.map (fun f => (f.filename, f.hash))).Pairwise (fun a b => a.1 ≤ b.1) :=
    hs2.map (fun f => (f.filename, f.hash)) (fun a b hab => by simpa [fileMetaLe] using hab)
  have hndk : ((l1.map (fun f => (f.filename, f.hash))).map Prod.fst).Nodup := by
    rw [List.map_map]
    exact hnd1
  have heq := sorted_nodup_perm_eq _ _ hperm h1 h2 hndk
  have hsplit : ∀ l : List FileMeta,
      l.map (fun f => f.filename ++ ":" ++ f.hash) =
        (l.map (fun f => (f.filename, f.hash))).map (fun p => p.1 ++ ":" ++ p.2) := by
    intro l
    rw [List.map_map]
    rfl
  rw [hsplit l1, hsplit l2, heq]

/-- C1 amended: the forward direction holds — two `FileList`s built over walks
with pairwise-distinct relative paths whose (filename, hash) multisets agree
have equal `hash_str`, whatever the mtimes are (mtimes do not participate).
The converse fails; see the counterexample. -/
theorem c1_equal_pairs_give_equal_hash (fa fb : String)
    (La Lb : List (String × String × Nat))
    (ha : (La.map (fun e => e.1)).Nodup) (hb : (Lb.map (fun e => e.1)).Nodup)
    (hperm : (fileListPairs (FileList_new fa La)).Perm (fileListPairs (FileList_new fb Lb))) :
    (FileList_new fa La).hash_str = (FileList_new fb Lb).hash_str := by
  have hndsorted : ∀ (folder : String) (L : List (String × String × Nat)),
      (L.map (fun e => e.1)).Nodup →
      (((L.map (walkMeta folder)).mergeSort fileMetaLe).map FileMeta.filename).Nodup := by
    intro folder L hL
    have hpm := (List.mergeSort_perm (L.map (walkMeta folder)) fileMetaLe).map FileMeta.filename
    rw [hpm.nodup_iff, List.map_map]
    have hinj : Function.Injective (fun s => folder ++ "/" ++ s) := fun s t hst =>
      sappend_left_cancel (folder ++ "/") hst
    have hcomp : L.map (FileMeta.filename ∘ walkMeta folder) =
        (L.map (fun e => e.1)).map (fun s => folder ++ "/" ++ s) := by
      rw [List.map_map]
      rfl
    rw [hcomp]
    exact hL.map hinj
  refine congrArg hash_str (congrArg (String.intercalate "|") ?_)
  exact serialize_eq_of_pairs_perm _ _
    (List.sorted_mergeSort fileMetaLe_trans fileMetaLe_total _)
    (List.sorted_mergeSort fileMetaLe_trans fileMetaLe_total _)
    (hndsorted fa La ha) hperm

/-- C1 counterexample: the serialization `filename:hash|…` does not escape `:`
or `|`, so a folder holding the single file `a:<H(ca)>|n/b` with content `cb`
serializes exactly like a folder holding the two files `a` (content `ca`) and
`b` (content `cb`): the two `FileList`s have equal `hash_str` but different
(filename, hash) multisets (their cardinalities differ). -/
theorem c1_counterexample :
    (FileList_new "n" c1_walkA).hash_str = (FileList_new "n" c1_walkB).hash_str ∧
    ¬ (fileListPairs (FileList_new "n" c1_walkA)).Perm
        (fileListPairs (FileList_new "n" c1_walkB)) := by
  constructor
  · refine congrArg hash_str ?_
    simp only [c1_walkA, c1_walkB, List.map_cons, List.map_nil]
    rw [List.mergeSort_singleton]
    rw [@List.mergeSort_of_sorted FileMeta fileMetaLe _ (by
      refine List.Pairwise.cons ?_ (List.pairwise_singleton _ _)
      intro b hb
      rw [List.mem_singleton.mp hb]
      simp [fileMetaLe, walkMeta]
      decide)]
    simp only [List.map_cons, List.map_nil, walkMeta]
    rw [intercalate_singleton, intercalate_pair]
    simp only [String.append_assoc]
    rw [lit_merge "|n/b" ":" "|n/b:" (by decide)]
    rw [lit_merge "b" ":" "b:" (by decide)]
    rw [lit_merge "/" "b:" "/b:" (by decide)]
    rw [lit_merge "n" "/b:" "n/b:" (by decide)]
    rw [lit_merge "|" "n/b:" "|n/b:" (by decide)]
    rw [lit_merge "a" ":" "a:" (by decide)]
  · intro hp
    have hlen := hp.length_eq
    simp only [fileListPairs, FileList_new, c1_walkA, c1_walkB, List.length_map,
      List.length_mergeSort, List.length_cons, List.length_nil] at hlen
    cases hlen

/-- C1 witness for the amended direction: the same single file with different
mtimes yields the same `hash_str`. -/
theorem c1_witness :
    (([("a", "c", 5)] : List (String × String × Nat)).map (fun e => e.1)).Nodup ∧
    (([("a", "c", 7)] : List (String × String × Nat)).map (fun e => e.1)).Nodup ∧
    (fileListPairs (FileList_new "n" [("a", "c", 5)])).Perm
      (fileListPairs (FileList_new "n" [("a", "c", 7)])) ∧
    (FileList_new "n" [("a", "c", 5)]).hash_str =
      (FileList_new "n" [("a", "c", 7)]).hash_str := by
  have h : fileListPairs (FileList_new "n" [("a", "c", 5)]) =
      fileListPairs (FileList_new "n" [("a", "c", 7)]) := by
    simp only [fileListPairs, FileList_new, List.map_cons, List.map_nil,
      List.mergeSort_singleton, walkMeta]
  have hp : (fileListPairs (FileList_new "n" [("a", "c", 5)])).Perm
      (fileListPairs (FileList_new "n" [("a", "c", 7)])) := by
    rw [h]
  exact ⟨by decide, by decide, hp,
    c1_equal_pairs_give_equal_hash "n" "n" [("a", "c", 5)] [("a", "c", 7)]
      (by decide) (by decide) hp⟩

end Cng3
